import Mathlib

/-!
Verification of the GhostbusterX backend engine.

The definitions below are a shallow embedding of the Python sources:
  - `grid.py` / the active `game_logic.py` classes `Cell`, `Grid`, `Ghost`, `Game`
    (of the three versions contained in `game_logic.py`, only the last one is
    live code; the first two are commented out by triple-quoted strings),
  - `bayes_updates.py` function `apply_bayes_update`,
  - `ghost.py` class `Ghost` (embedded here as `GhostP`).

Modelling conventions:
  - Python floats are modelled as exact rationals (`ℚ`).  The float
    constants `0.8`, `1.5`, `1e-12` become `4/5`, `3/2`, `1/10^12`.
    `int(0.8 * n)` (truncation of a float product, `n` a neighbour count,
    always `n ≤ 8`) is modelled as natural division `(4 * n) / 5`, which
    agrees with the Python value for every `n ≤ 8`.
  - Python `Cell` objects are identified by their coordinates: every cell
    object lives at exactly one grid coordinate, and Python object identity
    coincides with coordinate equality, so lists of cells are embedded as
    lists of coordinates and field access goes through the grid.
  - The implicit global random generator (`random.choice`) is modelled by an
    explicit oracle `choice : ℕ` selecting index `choice % length` of the
    candidate list; quantifying over `choice` quantifies over all draws.
  - Mutation is embedded as explicit state passing; grid contents are a total
    function `ℤ → ℤ → Cell` whose values outside the grid bounds are junk
    that the engine never reads (every read goes through a bounds check,
    mirroring `Grid.get_cell`).
-/

namespace GhostbusterX

set_option maxRecDepth 1000000

/-- The five cell colours of the engine (`"neutral"`, `"red"`, `"orange"`,
`"yellow"`, `"green"` in the Python sources). -/
inductive Color where
  | neutral
  | red
  | orange
  | yellow
  | green
deriving DecidableEq, Repr

/-- `Cell` from `game_logic.py` / `grid.py`: per-position state.  The `row`
and `col` attributes of the Python object are the coordinates at which the
cell is stored in the grid, so they are not duplicated here. -/
structure Cell where
  inquired : Bool
  color : Color
  probability : ℚ
deriving DecidableEq, Repr

/-- `Grid` from the active `game_logic.py`: a square board of `Cell`s.
`cells` is total; coordinates outside `[0, size) × [0, size)` hold junk that
is never read (all reads are bounds-checked, as in `Grid.get_cell`). -/
structure Grid where
  size : ℕ
  cells : ℤ → ℤ → Cell

/-- `Grid.get_cell`: bounds-checked access, `None` when out of range. -/
def Grid.get_cell (g : Grid) (row col : ℤ) : Option Cell :=
  if 0 ≤ row ∧ row < (g.size : ℤ) ∧ 0 ≤ col ∧ col < (g.size : ℤ) then
    some (g.cells row col)
  else
    none

/-- The list `[a, a+1, …, a+n-1]` of integers (a Python `range` starting at a
possibly negative bound). -/
def intRange (a : ℤ) (n : ℕ) : List ℤ :=
  (List.range n).map (fun (i : ℕ) => a + (i : ℤ))

/-- `Grid.get_nearby_cells(row, col, distance)`: the in-bounds cells of the
`(2·distance+1)²` block centred at `(row, col)`, excluding the centre, in
row-major order.  (Both the `grid.py` version, which clamps the iteration
range, and the `game_logic.py` version, which filters through `get_cell`,
produce this list.) -/
def Grid.get_nearby_cells (g : Grid) (row col : ℤ) (distance : ℕ) : List (ℤ × ℤ) :=
  (intRange (row - distance) (2 * distance + 1)).flatMap (fun r =>
    (intRange (col - distance) (2 * distance + 1)).filterMap (fun c =>
      if (r, c) = (row, col) then none
      else if (g.get_cell r c).isSome then some (r, c) else none))

/-- Row-major list of the coordinates of an `n × n` grid (the iteration order
of the nested `for r in range(n): for c in range(n)` loops). -/
def coordList (n : ℕ) : List (ℤ × ℤ) :=
  (List.range n).flatMap (fun (r : ℕ) =>
    (List.range n).map (fun (c : ℕ) => ((r : ℤ), (c : ℤ))))

/-- `Grid.all_cells`: coordinates of all cells in row-major order (the
generator yields the cell objects; see the identification of cells with
their coordinates above). -/
def Grid.all_cells (g : Grid) : List (ℤ × ℤ) :=
  coordList g.size

/-- Sum of the probabilities of all cells of the grid
(`sum(cell.probability for cell in grid.all_cells())`). -/
def Grid.probSum (g : Grid) : ℚ :=
  (g.all_cells.map (fun p => (g.cells p.1 p.2).probability)).sum

/-- Module constant `GRID_SIZE = 10` of `game_logic.py`. -/
def GRID_SIZE : ℕ := 10

/-- Module constant `NEARBY_DISTANCE = 1` of `game_logic.py`. -/
def NEARBY_DISTANCE : ℤ := 1

/-- The boost factor `region_boost = 1.5` of `apply_region_based_probabilities`. -/
def region_boost : ℚ := 3 / 2

/-- The decay factor `outside_decrease = 0.8` of `apply_region_based_probabilities`. -/
def outside_decrease : ℚ := 4 / 5

/-- The degenerate-normalization guard `1e-12`. -/
def EPS : ℚ := 1 / 1000000000000

/-- `int(MOVE_NEARBY_THRESHOLD * len(neighbors))` with
`MOVE_NEARBY_THRESHOLD = 0.8`: the Python float product truncated to an
int.  For every possible neighbour count `n ≤ 8` the double-precision value
`int(0.8 * n)` equals `⌊4n/5⌋`, so the threshold is embedded as natural
division. -/
def move_threshold (n : ℕ) : ℕ := (4 * n) / 5

/-- The full set of `GRID_SIZE²` coordinates
(`{(r, c) for r in range(GRID_SIZE) for c in range(GRID_SIZE)}`). -/
def fullPositions : Finset (ℤ × ℤ) :=
  (coordList GRID_SIZE).toFinset

/-- `Ghost` from the active `game_logic.py` (the ghost embedded in `Game`).
Its random initial placement is a parameter of `Game.init`. -/
structure Ghost where
  x : ℤ
  y : ℤ
  moves_left : ℕ
deriving DecidableEq, Repr

/-- `Ghost.can_move`: `moves_left > 0`. -/
def Ghost.can_move (gh : Ghost) : Bool :=
  decide (0 < gh.moves_left)

/-- `Ghost.move` from the active `game_logic.py`: if moves remain, collect
every coordinate other than the current position whose cell is not
inquired; if that list is empty stay put, otherwise jump to the entry the
random oracle selects and decrement `moves_left`. -/
def Ghost.move (gh : Ghost) (grid : Grid) (choice : ℕ) : Ghost :=
  if gh.moves_left = 0 then gh
  else
    let ps := grid.all_cells.filter (fun p =>
      decide (p ≠ (gh.x, gh.y)) && !(grid.cells p.1 p.2).inquired)
    if ps = [] then gh
    else
      let p := ps.getD (choice % ps.length) (gh.x, gh.y)
      { x := p.1, y := p.2, moves_left := gh.moves_left - 1 }

/-- `Game` from the active `game_logic.py`. -/
structure Game where
  grid : Grid
  ghost : Ghost
  burst_mode : Bool
  possible_positions : Finset (ℤ × ℤ)

/-- `Game.__init__` with the ghost's random placement and move budget made
explicit parameters: a `GRID_SIZE × GRID_SIZE` grid of fresh cells with
uniform probability, no burst mode, and all positions possible. -/
def Game.init (gx gy : ℤ) (moves : ℕ) : Game :=
  let freshCell : Cell :=
    { inquired := false
      color := Color.neutral
      probability := 1 / ((GRID_SIZE : ℚ) * (GRID_SIZE : ℚ)) }
  { grid := { size := GRID_SIZE, cells := fun _ _ => freshCell }
    ghost := { x := gx, y := gy, moves_left := moves }
    burst_mode := false
    possible_positions := fullPositions }

/-- `Game.is_ghost_nearby`: Chebyshev distance from the ghost to the inquired
cell is at most `NEARBY_DISTANCE`. -/
def Game.is_ghost_nearby (g : Game) (row col : ℤ) : Bool :=
  decide (|g.ghost.x - row| ≤ NEARBY_DISTANCE ∧ |g.ghost.y - col| ≤ NEARBY_DISTANCE)

/-- The colour `inquire_cell` assigns to a freshly inquired cell: `red` at
the ghost's exact position, `orange` when the ghost is nearby, `green`
otherwise. -/
def Game.inquiryColor (g : Game) (row col : ℤ) : Color :=
  if (row, col) = (g.ghost.x, g.ghost.y) then Color.red
  else if g.is_ghost_nearby row col then Color.orange
  else Color.green

/-- The cell mutation performed by `inquire_cell` on the clicked cell:
`cell.inquired = True; cell.color = <assigned colour>`. -/
def Game.markCell (g : Game) (row col : ℤ) (color : Color) : Game :=
  let grid' : Grid :=
    { g.grid with cells := fun r c =>
        if (r, c) = (row, col) then
          { g.grid.cells row col with inquired := true, color := color }
        else g.grid.cells r c }
  { g with grid := grid' }

/-- `Game.apply_constraints`: narrow `possible_positions` according to the
3-signal semantics — `red` pins the set to the clicked cell, `orange`
intersects with the neighbour block, `green` removes the block and the
clicked cell. -/
def Game.apply_constraints (g : Game) (row col : ℤ) (color : Color) : Game :=
  if color = Color.red then
    { g with possible_positions := {(row, col)} }
  else
    let neighbor_coords := (g.grid.get_nearby_cells row col 1).toFinset
    if color = Color.orange then
      { g with possible_positions := g.possible_positions ∩ neighbor_coords }
    else if color = Color.green then
      { g with possible_positions :=
          g.possible_positions \ (neighbor_coords ∪ {(row, col)}) }
    else g

/-- The ghost's 3×3 region: in-bounds cells of the block centred at the
ghost's current position, the centre included (the loop in
`apply_region_based_probabilities` does not skip the centre). -/
def Game.ghost_region (g : Game) : List (ℤ × ℤ) :=
  (intRange (g.ghost.x - 1) 3).flatMap (fun rr =>
    (intRange (g.ghost.y - 1) 3).filterMap (fun cc =>
      if (g.grid.get_cell rr cc).isSome then some (rr, cc) else none))

/-- The multiply phase of `apply_region_based_probabilities`: cells removed
from `possible_positions` are zeroed, cells in the ghost region are boosted
by `region_boost`, the rest decay by `outside_decrease`. -/
def Game.region_step (g : Game) : Grid :=
  { g.grid with cells := fun r c =>
      if (g.grid.get_cell r c).isSome then
        let cell := g.grid.cells r c
        if (r, c) ∉ g.possible_positions then { cell with probability := 0 }
        else if (r, c) ∈ g.ghost_region then
          { cell with probability := cell.probability * region_boost }
        else { cell with probability := cell.probability * outside_decrease }
      else g.grid.cells r c }

/-- The grid produced by `apply_region_based_probabilities`: multiply phase,
then either normalization by the total, or — when the total falls below
`EPS` — a reset to the uniform distribution over `possible_positions`
(a no-op when that set is empty; the Python code would in fact crash on an
out-of-bounds member of `possible_positions` in the reset loop, a situation
the game never creates — the embedding updates the junk cell instead). -/
def Game.region_result (g : Game) : Grid :=
  let step := g.region_step
  let total := step.probSum
  if total < EPS then
    if g.possible_positions.card = 0 then step
    else
      { step with cells := fun r c =>
          if (r, c) ∈ g.possible_positions then
            { step.cells r c with probability := 1 / (g.possible_positions.card : ℚ) }
          else step.cells r c }
  else
    { step with cells := fun r c =>
        if (g.grid.get_cell r c).isSome ∧ 0 < (step.cells r c).probability then
          { step.cells r c with probability := (step.cells r c).probability / total }
        else step.cells r c }

/-- `Game.apply_region_based_probabilities`: only the grid changes. -/
def Game.apply_region_based_probabilities (g : Game) : Game :=
  { g with grid := g.region_result }

/-- The firing condition of `attempt_ghost_move`: the clicked cell is `red`,
or at least `int(0.8 * len(neighbors))` of its neighbour block is inquired
(and the block is non-empty). -/
def Game.moveTrigger (g : Game) (row col : ℤ) : Bool :=
  let neighbors := g.grid.get_nearby_cells row col 1
  let inquired_count :=
    (neighbors.filter (fun p => (g.grid.cells p.1 p.2).inquired)).length
  decide ((g.grid.cells row col).color = Color.red)
    || (decide (move_threshold neighbors.length ≤ inquired_count)
        && decide (0 < neighbors.length))

/-- `Game.attempt_ghost_move` from the active `game_logic.py`: when the ghost
can still move and the trigger fires, invoke `Ghost.move`; if the position
changed, discard the clicked cell from `possible_positions` when it was
`red` (a dead store — the set is reset on the next line), reset
`possible_positions` to the full `GRID_SIZE²` coordinate set, discard the
clicked cell again when it was `red`, and re-run the region-based update;
returns whether the ghost relocated. -/
def Game.attempt_ghost_move (g : Game) (row col : ℤ) (choice : ℕ) : Bool × Game :=
  if g.ghost.can_move then
    if g.moveTrigger row col then
      let old := (g.ghost.x, g.ghost.y)
      let gh := g.ghost.move g.grid choice
      if (gh.x, gh.y) ≠ old then
        let _pp_dead := if (g.grid.cells row col).color = Color.red then
            g.possible_positions.erase (row, col)
          else g.possible_positions
        let pp := if (g.grid.cells row col).color = Color.red then
            fullPositions.erase (row, col)
          else fullPositions
        (true, Game.apply_region_based_probabilities
          { g with ghost := gh, possible_positions := pp })
      else (false, { g with ghost := gh })
    else (false, g)
  else (false, g)

/-- `Game.inquire_cell`: reject out-of-range or already-inquired cells,
otherwise mark the cell, assign its colour from the true ghost position,
apply constraints, run the region-based update, and attempt a ghost move.
Returns whether the ghost relocated. -/
def Game.inquire_cell (g : Game) (row col : ℤ) (choice : ℕ) : Bool × Game :=
  match g.grid.get_cell row col with
  | none => (false, g)
  | some cell =>
    if cell.inquired then (false, g)
    else
      let color := g.inquiryColor row col
      let g1 := g.markCell row col color
      let g2 := g1.apply_constraints row col color
      let g3 := g2.apply_region_based_probabilities
      g3.attempt_ghost_move row col choice

/-- `Game.burst_mode_attempt`: compare the guess with the ghost's true
position.  The method reads the state and returns a boolean; it performs no
assignment, so the state component of the result is the input state. -/
def Game.burst_mode_attempt (g : Game) (row col : ℤ) : Bool × Game :=
  (decide ((row, col) = (g.ghost.x, g.ghost.y)), g)

/-- `Game.switch_to_burst_mode`: set the flag. -/
def Game.switch_to_burst_mode (g : Game) : Game :=
  { g with burst_mode := true }

/-- The feasibility invariant: the ghost's true position is on the board and
is a member of `possible_positions`. -/
def Game.GhostFeasible (g : Game) : Prop :=
  (0 ≤ g.ghost.x ∧ g.ghost.x < (g.grid.size : ℤ)
    ∧ 0 ≤ g.ghost.y ∧ g.ghost.y < (g.grid.size : ℤ))
  ∧ (g.ghost.x, g.ghost.y) ∈ g.possible_positions

/-- The fraction of the inquired cell's neighbour block that has been
inquired (the quantity the specification compares against the relocation
threshold `0.8`). -/
def Game.inquiredFraction (g : Game) (row col : ℤ) : ℚ :=
  (((g.grid.get_nearby_cells row col 1).filter
      (fun p => (g.grid.cells p.1 p.2).inquired)).length : ℚ)
    / ((g.grid.get_nearby_cells row col 1).length : ℚ)

/-- The relocation-trigger behaviour of a valid inquiry at `(row, col)`: at
the moment `attempt_ghost_move` runs (after marking, constraints and the
region update), its firing condition holds exactly when the true Chebyshev
distance is zero or the inquired-neighbour count reaches the code's
truncated threshold `int(0.8·n)`; and when it does not fire, the inquiry
completes with no relocation and no ghost change. -/
def RelocationTriggerSpec (g : Game) (row col : ℤ) (choice : ℕ) : Prop :=
  ((((g.markCell row col (g.inquiryColor row col)).apply_constraints row col
      (g.inquiryColor row col)).apply_region_based_probabilities.moveTrigger row col
        = true)
    ↔ (max |g.ghost.x - row| |g.ghost.y - col| = 0
      ∨ (move_threshold (g.grid.get_nearby_cells row col 1).length
          ≤ ((g.grid.get_nearby_cells row col 1).filter
              (fun p => (g.grid.cells p.1 p.2).inquired)).length
        ∧ 0 < (g.grid.get_nearby_cells row col 1).length)))
  ∧ ((((g.markCell row col (g.inquiryColor row col)).apply_constraints row col
      (g.inquiryColor row col)).apply_region_based_probabilities.moveTrigger row col
        = false) →
      g.inquire_cell row col choice
        = (false, ((g.markCell row col (g.inquiryColor row col)).apply_constraints
            row col (g.inquiryColor row col)).apply_region_based_probabilities))

/-- `observation_likelihood` from `bayes_updates.py`: the table
`P(observed_color | distance)` for distances `0`, `1`, `2` and `> 2`.  Each
final `else` branch of the Python function covers `green` together with any
other colour (in particular `neutral`). -/
def observation_likelihood (distance : ℤ) (color : Color) : ℚ :=
  if distance = 0 then
    if color = Color.red then 80 / 100
    else if color = Color.orange then 10 / 100
    else if color = Color.yellow then 5 / 100
    else 5 / 100
  else if distance = 1 then
    if color = Color.red then 10 / 100
    else if color = Color.orange then 70 / 100
    else if color = Color.yellow then 10 / 100
    else 10 / 100
  else if distance = 2 then
    if color = Color.red then 5 / 100
    else if color = Color.orange then 10 / 100
    else if color = Color.yellow then 70 / 100
    else 15 / 100
  else
    if color = Color.red then 5 / 100
    else if color = Color.orange then 5 / 100
    else if color = Color.yellow then 10 / 100
    else 80 / 100

/-- The unnormalized posterior of one cell in `apply_bayes_update`: its prior
times the likelihood of the observed colour at its Chebyshev distance from
the clicked cell. -/
def bayesUnnormalized (grid : Grid) (clicked_row clicked_col : ℤ)
    (observed_color : Color) (r c : ℤ) : ℚ :=
  (grid.cells r c).probability
    * observation_likelihood (max |r - clicked_row| |c - clicked_col|) observed_color

/-- The normalization total of `apply_bayes_update`: the sum of the
unnormalized posteriors over all cells (in the row-major `all_cells`
order). -/
def bayesTotal (grid : Grid) (clicked_row clicked_col : ℤ)
    (observed_color : Color) : ℚ :=
  (grid.all_cells.map
    (fun p => bayesUnnormalized grid clicked_row clicked_col observed_color p.1 p.2)).sum

/-- `apply_bayes_update` from `bayes_updates.py`: multiply every cell's prior
by the table likelihood and normalize by the total; when the total falls
below `1e-12`, reset every cell to the uniform value `1/size²` instead. -/
def apply_bayes_update (grid : Grid) (clicked_row clicked_col : ℤ)
    (observed_color : Color) : Grid :=
  let total := bayesTotal grid clicked_row clicked_col observed_color
  if total < EPS then
    { grid with cells := fun r c =>
        if (grid.get_cell r c).isSome then
          { grid.cells r c with
              probability := 1 / ((grid.size : ℚ) * (grid.size : ℚ)) }
        else grid.cells r c }
  else
    { grid with cells := fun r c =>
        if (grid.get_cell r c).isSome then
          { grid.cells r c with
              probability :=
                bayesUnnormalized grid clicked_row clicked_col observed_color r c / total }
        else grid.cells r c }

/-- The observation table exactly as the specification presents it: a bucket
match on the distance `{0, 1, 2, >2}`.  This definition follows the spec's
wording and is compared with `observation_likelihood`, which follows the
code. -/
def spec_likelihood (distance : ℕ) (color : Color) : ℚ :=
  match distance, color with
  | 0, Color.red => 80 / 100
  | 0, Color.orange => 10 / 100
  | 0, Color.yellow => 5 / 100
  | 0, _ => 5 / 100
  | 1, Color.red => 10 / 100
  | 1, Color.orange => 70 / 100
  | 1, Color.yellow => 10 / 100
  | 1, _ => 10 / 100
  | 2, Color.red => 5 / 100
  | 2, Color.orange => 10 / 100
  | 2, Color.yellow => 70 / 100
  | 2, _ => 15 / 100
  | _ + 3, Color.red => 5 / 100
  | _ + 3, Color.orange => 5 / 100
  | _ + 3, Color.yellow => 10 / 100
  | _ + 3, _ => 80 / 100

/-- The normalization sum exactly as the specification words it: for every
cell, prior times `P(s | Chebyshev distance)` from the bucket table, summed
over all cells.  Written from the spec, for comparison with the code's
`bayesTotal`. -/
def spec_posterior_total (grid : Grid) (clicked_row clicked_col : ℤ)
    (observed_color : Color) : ℚ :=
  (grid.all_cells.map (fun p =>
    (grid.cells p.1 p.2).probability
      * spec_likelihood (max |p.1 - clicked_row| |p.2 - clicked_col|).toNat
          observed_color)).sum

/-- `Ghost` from the standalone `ghost.py` module (named `GhostP` to keep it
apart from the `Ghost` class embedded in `game_logic.py`).  It records the
grid size it was constructed for. -/
structure GhostP where
  grid_size : ℕ
  moves_left : ℕ
  x : ℤ
  y : ℤ
deriving DecidableEq, Repr

/-- The preferred candidate list of `GhostP.move`: every coordinate other
than the current position whose cell is not inquired and none of whose
in-bounds neighbours is inquired, in row-major order. -/
def GhostP.idealCandidates (gh : GhostP) (grid : Grid) : List (ℤ × ℤ) :=
  (coordList gh.grid_size).filter (fun p =>
    decide (p ≠ (gh.x, gh.y))
      && !(grid.cells p.1 p.2).inquired
      && !((grid.get_nearby_cells p.1 p.2 1).any
            (fun q => (grid.cells q.1 q.2).inquired)))

/-- The fallback candidate list of `GhostP.move`: every coordinate other
than the current position, ignoring both inquiry filters. -/
def GhostP.fallbackCandidates (gh : GhostP) : List (ℤ × ℤ) :=
  (coordList gh.grid_size).filter (fun p => decide (p ≠ (gh.x, gh.y)))

/-- `GhostP.move` from `ghost.py`: a no-op when no moves remain; otherwise
choose from the ideal candidates, falling back to any coordinate except the
current one when no ideal candidate exists, move there and decrement the
budget.  `none` models the `random.choice([])` exception raised when even
the fallback list is empty (possible only on a grid with a single cell). -/
def GhostP.move (gh : GhostP) (grid : Grid) (choice : ℕ) : Option GhostP :=
  if gh.moves_left = 0 then some gh
  else
    let ideal := gh.idealCandidates grid
    let candidates := if ideal = [] then gh.fallbackCandidates else ideal
    if candidates = [] then none
    else
      let p := candidates.getD (choice % candidates.length) (gh.x, gh.y)
      some { gh with x := p.1, y := p.2, moves_left := gh.moves_left - 1 }

/-- The behaviour claimed for `GhostP.move`: a no-op with no moves left;
otherwise it always succeeds, decrements the budget, and lands on a member
of the ideal candidate set — every coordinate other than the current one
that is not inquired and has no inquired in-bounds neighbour — or, when
that set is empty, of the fallback set of all coordinates other than the
current one; and every member of the operative candidate set is reachable
under some random draw. -/
def GhostPMoveSpec (gh : GhostP) (grid : Grid) (choice : ℕ) : Prop :=
  (gh.moves_left = 0 → gh.move grid choice = some gh)
  ∧ (0 < gh.moves_left →
      ∃ gh2, gh.move grid choice = some gh2
        ∧ gh2.moves_left = gh.moves_left - 1
        ∧ gh2.grid_size = gh.grid_size
        ∧ (gh.idealCandidates grid ≠ [] → (gh2.x, gh2.y) ∈ gh.idealCandidates grid)
        ∧ (gh.idealCandidates grid = [] → (gh2.x, gh2.y) ∈ gh.fallbackCandidates))
  ∧ (∀ p : ℤ × ℤ, p ∈ gh.idealCandidates grid ↔
      (p ∈ coordList gh.grid_size ∧ p ≠ (gh.x, gh.y)
        ∧ (grid.cells p.1 p.2).inquired = false
        ∧ ∀ q ∈ grid.get_nearby_cells p.1 p.2 1, (grid.cells q.1 q.2).inquired = false))
  ∧ (∀ p : ℤ × ℤ, p ∈ gh.fallbackCandidates ↔
      (p ∈ coordList gh.grid_size ∧ p ≠ (gh.x, gh.y)))
  ∧ (0 < gh.moves_left →
      ∀ p ∈ (if gh.idealCandidates grid = [] then gh.fallbackCandidates
             else gh.idealCandidates grid),
        ∃ ch gh2, gh.move grid ch = some gh2 ∧ (gh2.x, gh2.y) = p)

/-!  Concrete states used by witnesses and counterexamples.  -/

/-- A fresh cell with the uniform probability of an `n × n` grid. -/
def freshCellOf (n : ℕ) : Cell :=
  { inquired := false, color := Color.neutral, probability := 1 / ((n : ℚ) * (n : ℚ)) }

/-- A fresh `n × n` grid of uniform cells. -/
def freshGrid (n : ℕ) : Grid :=
  { size := n, cells := fun _ _ => freshCellOf n }

/-- A game on a fresh `n × n` grid with the ghost at `(gx, gy)`. -/
def freshGame (n : ℕ) (gx gy : ℤ) (moves : ℕ) (burst : Bool) : Game :=
  { grid := freshGrid n
    ghost := { x := gx, y := gy, moves_left := moves }
    burst_mode := burst
    possible_positions := (coordList n).toFinset }

/-- A 3×3 game in which six of the eight neighbours of `(1, 1)` have been
inquired (all but `(0, 0)` and `(2, 2)`), the ghost sits at `(0, 0)` with
its full move budget, and `(1, 1)` itself is not yet inquired. -/
def sixNeighborGame : Game :=
  let inq : List (ℤ × ℤ) := [(0, 1), (0, 2), (1, 0), (1, 2), (2, 0), (2, 1)]
  { grid := { size := 3
              cells := fun r c =>
                if (r, c) ∈ inq then
                  { inquired := true, color := Color.green, probability := 1 / 9 }
                else freshCellOf 3 }
    ghost := { x := 0, y := 0, moves_left := 3 }
    burst_mode := false
    possible_positions := (coordList 3).toFinset }

/-- A 10×10 game in the middle of an inquiry that found the ghost: cell
`(5, 5)` has just been marked inquired and red, the constraint set has been
pinned to `{(5, 5)}`, and the ghost (still at `(5, 5)`) has moves left. -/
def redMidGame : Game :=
  { grid := { size := 10
              cells := fun r c =>
                if (r, c) = ((5 : ℤ), (5 : ℤ)) then
                  { inquired := true, color := Color.red, probability := 1 }
                else { inquired := false, color := Color.neutral, probability := 0 } }
    ghost := { x := 5, y := 5, moves_left := 3 }
    burst_mode := false
    possible_positions := {((5 : ℤ), (5 : ℤ))} }

/-!  Basic lemmas about coordinate ranges and grid access.  -/

theorem mem_intRange {a : ℤ} {n : ℕ} {x : ℤ} :
    x ∈ intRange a n ↔ a ≤ x ∧ x < a + (n : ℤ) := by
  rw [intRange]
  constructor
  · intro hx
    obtain ⟨i, hi, rfl⟩ := List.mem_map.mp hx
    rw [List.mem_range] at hi
    omega
  · intro h
    refine List.mem_map.mpr ⟨(x - a).toNat, ?_, by omega⟩
    rw [List.mem_range]
    omega

theorem intRange_nodup (a : ℤ) (n : ℕ) : (intRange a n).Nodup := by
  rw [intRange]
  exact List.Nodup.map (fun i j h => by omega) (List.nodup_range n)

theorem mem_coordList {n : ℕ} {p : ℤ × ℤ} :
    p ∈ coordList n ↔ 0 ≤ p.1 ∧ p.1 < (n : ℤ) ∧ 0 ≤ p.2 ∧ p.2 < (n : ℤ) := by
  obtain ⟨x, y⟩ := p
  rw [coordList]
  constructor
  · intro hx
    obtain ⟨r, hr, hx⟩ := List.mem_flatMap.mp hx
    obtain ⟨c, hc, hx⟩ := List.mem_map.mp hx
    rw [List.mem_range] at hr hc
    obtain ⟨rfl, rfl⟩ := Prod.mk.injEq .. ▸ hx
    constructor
    · omega
    · refine ⟨by omega, by omega, by omega⟩
  · rintro ⟨hx0, hxn, hy0, hyn⟩
    refine List.mem_flatMap.mpr ⟨x.toNat, ?_, List.mem_map.mpr ⟨y.toNat, ?_, ?_⟩⟩
    · rw [List.mem_range]
      omega
    · rw [List.mem_range]
      omega
    · show (((x.toNat : ℤ)), ((y.toNat : ℤ))) = (x, y)
      rw [Prod.mk.injEq]
      omega

theorem coordList_nodup (n : ℕ) : (coordList n).Nodup := by
  rw [coordList, List.nodup_flatMap]
  constructor
  · intro r _
    exact List.Nodup.map
      (fun i j h => by
        have := congrArg Prod.snd h
        simp only [Nat.cast_inj] at this
        exact this)
      (List.nodup_range n)
  · rw [List.pairwise_iff_get]
    intro i j hij
    simp only [Function.onFun, List.get_eq_getElem, List.getElem_range]
    rw [List.disjoint_left]
    rintro p hp hq
    obtain ⟨c, _, rfl⟩ := List.mem_map.mp hp
    obtain ⟨c', _, h⟩ := List.mem_map.mp hq
    have h1 := congrArg Prod.fst h
    simp only [Nat.cast_inj] at h1
    omega

theorem coordList_length (n : ℕ) : (coordList n).length = n * n := by
  have hconst : ∀ m k : ℕ, (List.map (fun _ => k) (List.range m)).sum = m * k := by
    intro m k
    induction m with
    | zero => simp
    | succ m ih =>
      rw [List.range_succ, List.map_append, List.sum_append]
      simp [ih, Nat.succ_mul]
  rw [coordList, List.length_flatMap]
  have h : (List.map (List.length ∘ fun (r : ℕ) =>
        List.map (fun (c : ℕ) => ((r : ℤ), (c : ℤ))) (List.range n)) (List.range n))
      = List.map (fun _ => n) (List.range n) := by
    refine List.map_congr_left (fun r _ => ?_)
    simp
  rw [h, hconst]

theorem get_cell_isSome {g : Grid} {r c : ℤ} :
    (g.get_cell r c).isSome = true ↔
      0 ≤ r ∧ r < (g.size : ℤ) ∧ 0 ≤ c ∧ c < (g.size : ℤ) := by
  rw [Grid.get_cell]
  split <;> simp_all

theorem get_cell_eq_some {g : Grid} {r c : ℤ}
    (h : 0 ≤ r ∧ r < (g.size : ℤ) ∧ 0 ≤ c ∧ c < (g.size : ℤ)) :
    g.get_cell r c = some (g.cells r c) := by
  rw [Grid.get_cell, if_pos h]

theorem mem_all_cells {g : Grid} {p : ℤ × ℤ} :
    p ∈ g.all_cells ↔
      0 ≤ p.1 ∧ p.1 < (g.size : ℤ) ∧ 0 ≤ p.2 ∧ p.2 < (g.size : ℤ) :=
  mem_coordList

theorem mem_get_nearby_cells {g : Grid} {row col : ℤ} {d : ℕ} {p : ℤ × ℤ} :
    p ∈ g.get_nearby_cells row col d ↔
      p ≠ (row, col) ∧ (g.get_cell p.1 p.2).isSome = true
        ∧ |p.1 - row| ≤ (d : ℤ) ∧ |p.2 - col| ≤ (d : ℤ) := by
  obtain ⟨x, y⟩ := p
  simp only [Grid.get_nearby_cells, List.mem_flatMap, List.mem_filterMap, mem_intRange]
  constructor
  · rintro ⟨r, hr, c, hc, h⟩
    by_cases hcen : (r, c) = (row, col)
    · simp [hcen] at h
    · rw [if_neg hcen] at h
      by_cases hs : (g.get_cell r c).isSome
      · rw [if_pos hs] at h
        obtain ⟨rfl, rfl⟩ := Prod.mk.injEq .. ▸ Option.some.injEq .. ▸ h
        refine ⟨hcen, hs, ?_, ?_⟩
        · rw [abs_le]
          omega
        · rw [abs_le]
          omega
      · simp [hs] at h
  · rintro ⟨hne, hs, hx, hy⟩
    rw [abs_le] at hx hy
    refine ⟨x, by omega, y, by omega, ?_⟩
    rw [if_neg hne, if_pos hs]

/-!  Frame lemmas: which state components each operation leaves alone.  -/

theorem markCell_ghost (g : Game) (row col : ℤ) (color : Color) :
    (g.markCell row col color).ghost = g.ghost := rfl

theorem markCell_pp (g : Game) (row col : ℤ) (color : Color) :
    (g.markCell row col color).possible_positions = g.possible_positions := rfl

theorem markCell_size (g : Game) (row col : ℤ) (color : Color) :
    (g.markCell row col color).grid.size = g.grid.size := rfl

theorem markCell_cells_ne (g : Game) (row col : ℤ) (color : Color)
    {r c : ℤ} (h : (r, c) ≠ (row, col)) :
    (g.markCell row col color).grid.cells r c = g.grid.cells r c := by
  rw [Game.markCell]
  exact if_neg h

theorem markCell_cells_self (g : Game) (row col : ℤ) (color : Color) :
    (g.markCell row col color).grid.cells row col
      = { g.grid.cells row col with inquired := true, color := color } := by
  rw [Game.markCell]
  exact if_pos rfl

theorem apply_constraints_grid (g : Game) (row col : ℤ) (color : Color) :
    (g.apply_constraints row col color).grid = g.grid := by
  rw [Game.apply_constraints]
  split
  · rfl
  · split
    · rfl
    · split <;> rfl

theorem apply_constraints_ghost (g : Game) (row col : ℤ) (color : Color) :
    (g.apply_constraints row col color).ghost = g.ghost := by
  rw [Game.apply_constraints]
  split
  · rfl
  · split
    · rfl
    · split <;> rfl

theorem region_step_size (g : Game) : g.region_step.size = g.grid.size := rfl

theorem region_step_inquired (g : Game) (r c : ℤ) :
    (g.region_step.cells r c).inquired = (g.grid.cells r c).inquired := by
  rw [Game.region_step]
  dsimp only
  split
  · split
    · rfl
    · split <;> rfl
  · rfl

theorem region_step_color (g : Game) (r c : ℤ) :
    (g.region_step.cells r c).color = (g.grid.cells r c).color := by
  rw [Game.region_step]
  dsimp only
  split
  · split
    · rfl
    · split <;> rfl
  · rfl

theorem region_result_size (g : Game) : g.region_result.size = g.grid.size := by
  rw [Game.region_result]
  dsimp only
  split
  · split <;> rfl
  · rfl

theorem region_result_inquired (g : Game) (r c : ℤ) :
    (g.region_result.cells r c).inquired = (g.grid.cells r c).inquired := by
  rw [Game.region_result]
  dsimp only
  have hs := region_step_inquired g r c
  split
  · split
    · exact hs
    · dsimp only
      split
      · exact hs
      · exact hs
  · dsimp only
    split
    · exact hs
    · exact hs

theorem region_result_color (g : Game) (r c : ℤ) :
    (g.region_result.cells r c).color = (g.grid.cells r c).color := by
  rw [Game.region_result]
  dsimp only
  have hs := region_step_color g r c
  split
  · split
    · exact hs
    · dsimp only
      split
      · exact hs
      · exact hs
  · dsimp only
    split
    · exact hs
    · exact hs

theorem apply_region_pp (g : Game) :
    g.apply_region_based_probabilities.possible_positions = g.possible_positions := rfl

theorem apply_region_ghost (g : Game) :
    g.apply_region_based_probabilities.ghost = g.ghost := rfl

theorem apply_region_burst (g : Game) :
    g.apply_region_based_probabilities.burst_mode = g.burst_mode := rfl

theorem apply_region_grid (g : Game) :
    g.apply_region_based_probabilities.grid = g.region_result := rfl

/-!  Congruence lemmas: operations that read only part of the state give
equal results on states agreeing on that part.  -/

theorem get_cell_isSome_congr {g1 g2 : Grid} (h : g1.size = g2.size) (r c : ℤ) :
    (g1.get_cell r c).isSome = (g2.get_cell r c).isSome := by
  rw [Bool.eq_iff_iff, get_cell_isSome, get_cell_isSome, h]

theorem get_nearby_cells_congr {g1 g2 : Grid} (h : g1.size = g2.size)
    (row col : ℤ) (d : ℕ) :
    g1.get_nearby_cells row col d = g2.get_nearby_cells row col d := by
  rw [Grid.get_nearby_cells, Grid.get_nearby_cells]
  congr 1
  funext r
  congr 1
  funext c
  rw [get_cell_isSome_congr h]

theorem ghost_move_congr {g1 g2 : Grid} (gh : Ghost) (choice : ℕ)
    (h : g1.size = g2.size)
    (hinq : ∀ p ∈ g1.all_cells, (g1.cells p.1 p.2).inquired = (g2.cells p.1 p.2).inquired) :
    gh.move g1 choice = gh.move g2 choice := by
  rw [Ghost.move, Ghost.move]
  have hall : g1.all_cells = g2.all_cells := by
    rw [Grid.all_cells, Grid.all_cells, h]
  have hps : g1.all_cells.filter (fun p =>
        decide (p ≠ (gh.x, gh.y)) && !(g1.cells p.1 p.2).inquired)
      = g2.all_cells.filter (fun p =>
        decide (p ≠ (gh.x, gh.y)) && !(g2.cells p.1 p.2).inquired) := by
    rw [← hall]
    refine List.filter_congr (fun p hp => ?_)
    rw [hinq p hp]
  rw [hps]

theorem moveTrigger_congr {g1 g2 : Game} (row col : ℤ)
    (hsize : g1.grid.size = g2.grid.size)
    (hinq : ∀ r c, (g1.grid.cells r c).inquired = (g2.grid.cells r c).inquired)
    (hcol : ∀ r c, (g1.grid.cells r c).color = (g2.grid.cells r c).color) :
    g1.moveTrigger row col = g2.moveTrigger row col := by
  rw [Game.moveTrigger, Game.moveTrigger]
  have hn := @get_nearby_cells_congr g1.grid g2.grid hsize row col 1
  rw [hn, hcol row col]
  have hcount : (g2.grid.get_nearby_cells row col 1).filter
        (fun p => (g1.grid.cells p.1 p.2).inquired)
      = (g2.grid.get_nearby_cells row col 1).filter
        (fun p => (g2.grid.cells p.1 p.2).inquired) := by
    refine List.filter_congr (fun p _ => ?_)
    rw [hinq p.1 p.2]
  rw [hcount]

/-!  Arithmetic helpers for sums over cell lists.  -/

theorem sum_map_div {α : Type} (l : List α) (f : α → ℚ) (t : ℚ) :
    (l.map (fun x => f x / t)).sum = (l.map f).sum / t := by
  induction l with
  | nil => simp
  | cons a l ih =>
    rw [List.map_cons, List.map_cons, List.sum_cons, List.sum_cons, ih, add_div]

theorem sum_map_const_q {α : Type} (l : List α) (c : ℚ) :
    (l.map (fun _ => c)).sum = (l.length : ℚ) * c := by
  induction l with
  | nil => simp
  | cons a l ih =>
    rw [List.map_cons, List.sum_cons, ih, List.length_cons]
    push_cast
    ring

/-- The code's likelihood table agrees with the spec's bucket table at every
actual (non-negative) distance and colour. -/
theorem observation_eq_spec (k : ℕ) (s : Color) :
    observation_likelihood (k : ℤ) s = spec_likelihood k s := by
  match k with
  | 0 => cases s <;> rfl
  | 1 => cases s <;> rfl
  | 2 => cases s <;> rfl
  | k + 3 =>
    rw [observation_likelihood]
    rw [if_neg (by omega), if_neg (by omega), if_neg (by omega)]
    cases s <;> rfl

theorem spec_total_eq (grid : Grid) (qr qc : ℤ) (s : Color) :
    spec_posterior_total grid qr qc s = bayesTotal grid qr qc s := by
  rw [spec_posterior_total, bayesTotal]
  congr 1
  refine List.map_congr_left (fun p _ => ?_)
  rw [bayesUnnormalized]
  congr 1
  have hnn : 0 ≤ max |p.1 - qr| |p.2 - qc| :=
    le_trans (abs_nonneg _) (le_max_left _ _)
  rw [← observation_eq_spec (max |p.1 - qr| |p.2 - qc|).toNat s,
    Int.toNat_of_nonneg hnn]

/-- Claim C1: for every grid state, inquiry coordinate and observed signal,
the Bayesian update sets each (in-bounds) cell's probability to its prior
times the spec's bucket-table likelihood at the Chebyshev distance, divided
by the sum of these products over all cells; and when that sum is below
`1e-12` every cell is instead reset to the uniform value `1/N²`. -/
theorem bayes_update_matches_spec (grid : Grid) (qr qc : ℤ) (s : Color) (r c : ℤ)
    (hb : 0 ≤ r ∧ r < (grid.size : ℤ) ∧ 0 ≤ c ∧ c < (grid.size : ℤ)) :
    ((apply_bayes_update grid qr qc s).cells r c).probability =
      if spec_posterior_total grid qr qc s < EPS then
        1 / ((grid.size : ℚ) * (grid.size : ℚ))
      else
        (grid.cells r c).probability
          * spec_likelihood (max |r - qr| |c - qc|).toNat s
          / spec_posterior_total grid qr qc s := by
  have ht := spec_total_eq grid qr qc s
  rw [apply_bayes_update, ht]
  dsimp only
  by_cases h : bayesTotal grid qr qc s < EPS
  · rw [if_pos h, if_pos h]
    dsimp only
    rw [if_pos (get_cell_isSome.mpr hb)]
  · rw [if_neg h, if_neg h]
    dsimp only
    rw [if_pos (get_cell_isSome.mpr hb)]
    dsimp only
    rw [bayesUnnormalized]
    congr 2
    have hnn : 0 ≤ max |r - qr| |c - qc| :=
      le_trans (abs_nonneg _) (le_max_left _ _)
    rw [← observation_eq_spec (max |r - qr| |c - qc|).toNat s,
      Int.toNat_of_nonneg hnn]

/-- Witness for C1 at a concrete input: the top-left cell of a fresh 2×2
grid is in bounds, and the theorem applies there. -/
theorem bayes_update_matches_spec_witness :
    (0 ≤ (0 : ℤ) ∧ (0 : ℤ) < ((freshGrid 2).size : ℤ)
      ∧ 0 ≤ (0 : ℤ) ∧ (0 : ℤ) < ((freshGrid 2).size : ℤ))
    ∧ ((apply_bayes_update (freshGrid 2) 0 0 Color.red).cells 0 0).probability =
        (if spec_posterior_total (freshGrid 2) 0 0 Color.red < EPS then
          1 / (((freshGrid 2).size : ℚ) * ((freshGrid 2).size : ℚ))
        else
          ((freshGrid 2).cells 0 0).probability
            * spec_likelihood (max |(0 : ℤ) - 0| |(0 : ℤ) - 0|).toNat Color.red
            / spec_posterior_total (freshGrid 2) 0 0 Color.red) :=
  ⟨by decide, bayes_update_matches_spec (freshGrid 2) 0 0 Color.red 0 0 (by decide)⟩

/-- Claim C2: the three-signal constraint update — `red` pins the set to the
clicked cell, `orange` intersects with the in-bounds 8-connected neighbour
set of the clicked cell, `green` removes that neighbour set together with
the clicked cell — where the neighbour set consists exactly of the in-bounds
coordinates at Chebyshev distance 1. -/
theorem apply_constraints_matches_signal_semantics (g : Game) (row col : ℤ) :
    ((g.apply_constraints row col Color.red).possible_positions = {(row, col)})
    ∧ ((g.apply_constraints row col Color.orange).possible_positions
        = g.possible_positions ∩ (g.grid.get_nearby_cells row col 1).toFinset)
    ∧ ((g.apply_constraints row col Color.green).possible_positions
        = g.possible_positions
            \ ((g.grid.get_nearby_cells row col 1).toFinset ∪ {(row, col)}))
    ∧ (∀ p : ℤ × ℤ, p ∈ (g.grid.get_nearby_cells row col 1).toFinset ↔
        ((g.grid.get_cell p.1 p.2).isSome = true
          ∧ max |p.1 - row| |p.2 - col| = 1)) := by
  refine ⟨?_, ?_, ?_, ?_⟩
  · rw [Game.apply_constraints, if_pos rfl]
  · rw [Game.apply_constraints, if_neg (by decide), if_pos rfl]
  · rw [Game.apply_constraints, if_neg (by decide), if_neg (by decide),
      if_pos rfl]
  · intro p
    rw [List.mem_toFinset, mem_get_nearby_cells]
    constructor
    · rintro ⟨hne, hs, h1, h2⟩
      refine ⟨hs, ?_⟩
      have hne' : ¬(p.1 = row ∧ p.2 = col) := by
        intro hcon
        exact hne (Prod.ext hcon.1 hcon.2)
      simp only [Int.abs_eq_natAbs, ← Nat.cast_max] at *
      omega
    · rintro ⟨hs, h⟩
      have hne : p ≠ (row, col) := by
        intro hcon
        rw [hcon] at h
        simp at h
      refine ⟨hne, hs, ?_, ?_⟩ <;>
        simp only [Int.abs_eq_natAbs, ← Nat.cast_max] at * <;> omega

theorem sum_map_ite_mem {l : List (ℤ × ℤ)} (s : Finset (ℤ × ℤ)) (c : ℚ)
    (hl : l.Nodup) (hsub : ∀ p ∈ s, p ∈ l) :
    (l.map (fun p => if p ∈ s then c else 0)).sum = (s.card : ℚ) * c := by
  induction l generalizing s with
  | nil =>
    have hs : s = ∅ := Finset.eq_empty_iff_forall_not_mem.mpr
      (fun p hp => by simpa using hsub p hp)
    simp [hs]
  | cons a t ih =>
    rw [List.map_cons, List.sum_cons]
    have hat : a ∉ t := (List.nodup_cons.mp hl).1
    have htn : t.Nodup := (List.nodup_cons.mp hl).2
    by_cases ha : a ∈ s
    · rw [if_pos ha]
      have hrw : (t.map (fun p => if p ∈ s then c else 0)).sum
          = (t.map (fun p => if p ∈ s.erase a then c else 0)).sum := by
        congr 1
        refine List.map_congr_left (fun p hp => ?_)
        have hpa : p ≠ a := fun hcon => hat (hcon ▸ hp)
        simp [Finset.mem_erase, hpa]
      have hsub' : ∀ p ∈ s.erase a, p ∈ t := by
        intro p hp
        obtain ⟨hpa, hps⟩ := Finset.mem_erase.mp hp
        have := hsub p hps
        rw [List.mem_cons] at this
        exact this.resolve_left hpa
      rw [hrw, ih (s.erase a) htn hsub']
      rw [Finset.card_erase_of_mem ha]
      have hpos : 1 ≤ s.card := Finset.card_pos.mpr ⟨a, ha⟩
      rw [Nat.cast_sub hpos]
      push_cast
      ring
    · rw [if_neg ha, zero_add]
      refine ih s htn (fun p hp => ?_)
      have := hsub p hp
      rw [List.mem_cons] at this
      refine this.resolve_left (fun hcon => ha (hcon ▸ hp))

/-- `probSum` computed through a pointwise description of the cells. -/
theorem probSum_eq_of_cells {g : Grid} {f : ℤ × ℤ → ℚ}
    (h : ∀ p ∈ g.all_cells, (g.cells p.1 p.2).probability = f p) :
    g.probSum = (g.all_cells.map f).sum := by
  rw [Grid.probSum]
  congr 1
  exact List.map_congr_left h

/-- After `apply_bayes_update`, the probabilities sum to exactly 1 (for a
non-degenerate grid size). -/
theorem bayes_update_sum (grid : Grid) (qr qc : ℤ) (s : Color)
    (hsize : 0 < grid.size) :
    (apply_bayes_update grid qr qc s).probSum = 1 := by
  have hn : ((grid.size : ℚ) * (grid.size : ℚ)) ≠ 0 := by
    have h0 : (grid.size : ℚ) ≠ 0 := Nat.cast_ne_zero.mpr (by omega)
    exact mul_ne_zero h0 h0
  rw [apply_bayes_update]
  dsimp only
  by_cases h : bayesTotal grid qr qc s < EPS
  · rw [if_pos h]
    rw [probSum_eq_of_cells (f := fun _ => 1 / ((grid.size : ℚ) * (grid.size : ℚ)))
      (fun p hp => by
        have hb := mem_coordList.mp hp
        dsimp only
        rw [if_pos ((get_cell_isSome (g := grid)).mpr hb)])]
    show ((coordList grid.size).map _).sum = 1
    rw [sum_map_const_q, coordList_length]
    push_cast
    field_simp
  · rw [if_neg h]
    have htne : bayesTotal grid qr qc s ≠ 0 := by
      have hle : EPS ≤ bayesTotal grid qr qc s := le_of_not_lt h
      have hE : (0 : ℚ) < EPS := by norm_num [EPS]
      exact ne_of_gt (lt_of_lt_of_le hE hle)
    rw [probSum_eq_of_cells (f := fun p =>
        bayesUnnormalized grid qr qc s p.1 p.2 / bayesTotal grid qr qc s)
      (fun p hp => by
        have hb := mem_coordList.mp hp
        dsimp only
        rw [if_pos ((get_cell_isSome (g := grid)).mpr hb)])]
    show ((coordList grid.size).map _).sum = 1
    rw [sum_map_div]
    rw [show ((coordList grid.size).map
        (fun p => bayesUnnormalized grid qr qc s p.1 p.2)).sum
      = bayesTotal grid qr qc s from rfl]
    exact div_self htne

theorem region_step_nonneg (g : Game)
    (hnn : ∀ p ∈ g.grid.all_cells, 0 ≤ (g.grid.cells p.1 p.2).probability) :
    ∀ p ∈ g.grid.all_cells, 0 ≤ (g.region_step.cells p.1 p.2).probability := by
  intro p hp
  have hb := mem_coordList.mp hp
  rw [Game.region_step]
  dsimp only
  rw [if_pos (get_cell_isSome.mpr hb)]
  split
  · norm_num
  · split
    · exact mul_nonneg (hnn p hp) (by norm_num [region_boost])
    · exact mul_nonneg (hnn p hp) (by norm_num [outside_decrease])

theorem region_step_zero_of_not_mem (g : Game) {p : ℤ × ℤ}
    (hp : p ∈ g.grid.all_cells) (hout : p ∉ g.possible_positions) :
    (g.region_step.cells p.1 p.2).probability = 0 := by
  have hb := mem_coordList.mp hp
  rw [Game.region_step]
  dsimp only
  rw [if_pos (get_cell_isSome.mpr hb), if_pos hout]

/-- After `apply_region_based_probabilities`, the probabilities sum to
exactly 1, provided the constraint set is non-empty, lies inside the grid,
and the incoming probabilities are non-negative (all of which hold in every
reachable game state). -/
theorem region_update_sum (g : Game)
    (hne : g.possible_positions.Nonempty)
    (hsub : ∀ p ∈ g.possible_positions, p ∈ g.grid.all_cells)
    (hnn : ∀ p ∈ g.grid.all_cells, 0 ≤ (g.grid.cells p.1 p.2).probability) :
    g.apply_region_based_probabilities.grid.probSum = 1 := by
  rw [apply_region_grid, Game.region_result]
  dsimp only
  have hstep_nn := region_step_nonneg g hnn
  by_cases hlt : g.region_step.probSum < EPS
  · rw [if_pos hlt]
    have hcard : 0 < g.possible_positions.card := Finset.card_pos.mpr hne
    rw [if_neg (by omega)]
    rw [probSum_eq_of_cells (f := fun p =>
        if p ∈ g.possible_positions then 1 / (g.possible_positions.card : ℚ) else 0)
      (fun p hp => by
        dsimp only
        split
        · rfl
        · exact region_step_zero_of_not_mem g hp (by assumption))]
    show ((coordList g.grid.size).map _).sum = 1
    rw [sum_map_ite_mem g.possible_positions _ (coordList_nodup _) hsub]
    have : ((g.possible_positions.card : ℚ)) ≠ 0 := Nat.cast_ne_zero.mpr (by omega)
    field_simp
  · rw [if_neg hlt]
    have h0 : (0 : ℚ) < g.region_step.probSum :=
      lt_of_lt_of_le (by norm_num [EPS]) (le_of_not_lt hlt)
    rw [probSum_eq_of_cells (f := fun p =>
        (g.region_step.cells p.1 p.2).probability / g.region_step.probSum)
      (fun p hp => by
        have hb := mem_coordList.mp hp
        dsimp only
        by_cases hpos : 0 < (g.region_step.cells p.1 p.2).probability
        · rw [if_pos ⟨(get_cell_isSome (g := g.grid)).mpr hb, hpos⟩]
        · rw [if_neg (fun hand => hpos hand.2)]
          have hz : (g.region_step.cells p.1 p.2).probability = 0 :=
            le_antisymm (le_of_not_lt hpos) (hstep_nn p hp)
          rw [hz, zero_div])]
    show ((coordList g.grid.size).map _).sum = 1
    rw [sum_map_div]
    rw [show ((coordList g.grid.size).map
        (fun p => (g.region_step.cells p.1 p.2).probability)).sum
      = g.region_step.probSum from rfl]
    exact div_self (ne_of_gt h0)

/-- Claim C5: after every completed probability update — Bayesian or
region-based — the probabilities over all cells sum to exactly 1 (hence
within every stated tolerance), under the reachable-state side conditions:
a positive grid size for the Bayesian update; a non-empty in-bounds
constraint set and non-negative incoming probabilities for the region
update. -/
theorem updates_preserve_normalization :
    (∀ (grid : Grid) (qr qc : ℤ) (s : Color), 0 < grid.size →
      (apply_bayes_update grid qr qc s).probSum = 1)
    ∧ (∀ g : Game, g.possible_positions.Nonempty →
        (∀ p ∈ g.possible_positions, p ∈ g.grid.all_cells) →
        (∀ p ∈ g.grid.all_cells, 0 ≤ (g.grid.cells p.1 p.2).probability) →
        g.apply_region_based_probabilities.grid.probSum = 1) :=
  ⟨bayes_update_sum, region_update_sum⟩

/-- Witness for C5 at concrete inputs: a fresh 2×2 grid for the Bayesian
update and a fresh 2×2 game for the region update. -/
theorem updates_preserve_normalization_witness :
    (0 < (freshGrid 2).size
      ∧ (apply_bayes_update (freshGrid 2) 0 0 Color.green).probSum = 1)
    ∧ ((freshGame 2 0 0 3 false).possible_positions.Nonempty
      ∧ (∀ p ∈ (freshGame 2 0 0 3 false).possible_positions,
          p ∈ (freshGame 2 0 0 3 false).grid.all_cells)
      ∧ (∀ p ∈ (freshGame 2 0 0 3 false).grid.all_cells,
          0 ≤ ((freshGame 2 0 0 3 false).grid.cells p.1 p.2).probability)
      ∧ (freshGame 2 0 0 3 false).apply_region_based_probabilities.grid.probSum = 1) := by
  have h1 : (freshGame 2 0 0 3 false).possible_positions.Nonempty := by decide
  have h2 : ∀ p ∈ (freshGame 2 0 0 3 false).possible_positions,
      p ∈ (freshGame 2 0 0 3 false).grid.all_cells := by decide
  have h3 : ∀ p ∈ (freshGame 2 0 0 3 false).grid.all_cells,
      0 ≤ ((freshGame 2 0 0 3 false).grid.cells p.1 p.2).probability := by
    intro p _
    norm_num [freshGame, freshGrid, freshCellOf]
  exact ⟨⟨by decide,
      updates_preserve_normalization.1 (freshGrid 2) 0 0 Color.green (by decide)⟩,
    h1, h2, h3, updates_preserve_normalization.2 _ h1 h2 h3⟩

theorem get_cell_eq_none {g : Grid} {r c : ℤ}
    (h : ¬(0 ≤ r ∧ r < (g.size : ℤ) ∧ 0 ≤ c ∧ c < (g.size : ℤ))) :
    g.get_cell r c = none := by
  rw [Grid.get_cell]
  exact if_neg h

theorem attempt_ghost_move_size (g : Game) (row col : ℤ) (choice : ℕ) :
    (g.attempt_ghost_move row col choice).2.grid.size = g.grid.size := by
  rw [Game.attempt_ghost_move]
  dsimp only
  split
  · split
    · split
      · exact region_result_size _
      · rfl
    · rfl
  · rfl

theorem attempt_ghost_move_inquired (g : Game) (row col : ℤ) (choice : ℕ)
    (r c : ℤ) :
    ((g.attempt_ghost_move row col choice).2.grid.cells r c).inquired
      = (g.grid.cells r c).inquired := by
  rw [Game.attempt_ghost_move]
  dsimp only
  split
  · split
    · split
      · exact region_result_inquired _ r c
      · rfl
    · rfl
  · rfl

theorem attempt_ghost_move_color (g : Game) (row col : ℤ) (choice : ℕ)
    (r c : ℤ) :
    ((g.attempt_ghost_move row col choice).2.grid.cells r c).color
      = (g.grid.cells r c).color := by
  rw [Game.attempt_ghost_move]
  dsimp only
  split
  · split
    · split
      · exact region_result_color _ r c
      · rfl
    · rfl
  · rfl

theorem inquire_cell_rejected (g : Game) (row col : ℤ) (choice : ℕ)
    (h : g.grid.get_cell row col = none
      ∨ (g.grid.cells row col).inquired = true) :
    g.inquire_cell row col choice = (false, g) := by
  rcases h with h | h
  · rw [Game.inquire_cell, h]
  · by_cases hb : 0 ≤ row ∧ row < (g.grid.size : ℤ)
        ∧ 0 ≤ col ∧ col < (g.grid.size : ℤ)
    · rw [Game.inquire_cell, get_cell_eq_some hb]
      dsimp only
      rw [if_pos h]
    · rw [Game.inquire_cell, get_cell_eq_none hb]

theorem inquire_cell_valid_eq (g : Game) {row col : ℤ} (choice : ℕ)
    (hb : 0 ≤ row ∧ row < (g.grid.size : ℤ) ∧ 0 ≤ col ∧ col < (g.grid.size : ℤ))
    (hni : (g.grid.cells row col).inquired = false) :
    g.inquire_cell row col choice
      = (((g.markCell row col (g.inquiryColor row col)).apply_constraints row col
          (g.inquiryColor row col)).apply_region_based_probabilities).attempt_ghost_move
            row col choice := by
  rw [Game.inquire_cell, get_cell_eq_some hb]
  dsimp only
  rw [if_neg (by rw [hni]; exact Bool.false_ne_true)]

theorem inquire_cell_marks (g : Game) (row col : ℤ) (choice : ℕ)
    (hb : 0 ≤ row ∧ row < (g.grid.size : ℤ) ∧ 0 ≤ col ∧ col < (g.grid.size : ℤ))
    (hni : (g.grid.cells row col).inquired = false) :
    ((g.inquire_cell row col choice).2.grid.cells row col).inquired = true := by
  rw [inquire_cell_valid_eq g choice hb hni]
  rw [attempt_ghost_move_inquired]
  rw [show ((((g.markCell row col (g.inquiryColor row col)).apply_constraints row col
      (g.inquiryColor row col)).apply_region_based_probabilities).grid)
    = (((g.markCell row col (g.inquiryColor row col)).apply_constraints row col
      (g.inquiryColor row col)).region_result) from rfl]
  rw [region_result_inquired]
  rw [apply_constraints_grid]
  rw [markCell_cells_self]

theorem inquire_cell_size (g : Game) (row col : ℤ) (choice : ℕ) :
    (g.inquire_cell row col choice).2.grid.size = g.grid.size := by
  rw [Game.inquire_cell]
  rcases hcell : g.grid.get_cell row col with _ | cell
  · rfl
  · dsimp only
    split
    · rfl
    · rw [attempt_ghost_move_size]
      rw [show (((g.markCell row col (g.inquiryColor row col)).apply_constraints row col
          (g.inquiryColor row col)).apply_region_based_probabilities).grid
        = (((g.markCell row col (g.inquiryColor row col)).apply_constraints row col
          (g.inquiryColor row col)).region_result) from rfl]
      rw [region_result_size, apply_constraints_grid, markCell_size]

/-- Claim C7 (amended): `inquire_cell` returns `false` and leaves the state
unchanged when the coordinates are out of range or the cell was already
inquired — the code has no mode check, so burst mode does not block
inquiries — and in particular a second inquire on the same coordinate
always returns `false` with no state change. -/
theorem inquire_rejects_invalid (g : Game) (row col : ℤ) (c1 c2 : ℕ) :
    (g.grid.get_cell row col = none ∨ (g.grid.cells row col).inquired = true →
      g.inquire_cell row col c1 = (false, g))
    ∧ ((g.inquire_cell row col c1).2.inquire_cell row col c2
        = (false, (g.inquire_cell row col c1).2)) := by
  refine ⟨inquire_cell_rejected g row col c1, ?_⟩
  by_cases hb : 0 ≤ row ∧ row < (g.grid.size : ℤ)
      ∧ 0 ≤ col ∧ col < (g.grid.size : ℤ)
  · by_cases hni : (g.grid.cells row col).inquired = true
    · rw [inquire_cell_rejected g row col c1 (Or.inr hni)]
      exact inquire_cell_rejected g row col c2 (Or.inr hni)
    · refine inquire_cell_rejected _ row col c2 (Or.inr ?_)
      exact inquire_cell_marks g row col c1 hb (Bool.not_eq_true _ ▸ hni)
  · have hn : g.grid.get_cell row col = none := get_cell_eq_none hb
    rw [inquire_cell_rejected g row col c1 (Or.inl hn)]
    exact inquire_cell_rejected g row col c2 (Or.inl hn)

/-- Witness for C7 at concrete inputs: on a fresh 2×2 game in burst mode,
the out-of-range inquiry at `(5, 5)` is rejected with no state change, and
a repeated inquiry at `(0, 0)` is rejected the second time. -/
theorem inquire_rejects_invalid_witness :
    ((freshGame 2 1 1 0 true).grid.get_cell 5 5 = none
      ∨ ((freshGame 2 1 1 0 true).grid.cells 5 5).inquired = true)
    ∧ ((freshGame 2 1 1 0 true).inquire_cell 5 5 0 = (false, freshGame 2 1 1 0 true))
    ∧ (((freshGame 2 1 1 0 true).inquire_cell 0 0 0).2.inquire_cell 0 0 0
        = (false, ((freshGame 2 1 1 0 true).inquire_cell 0 0 0).2)) := by
  have h : (freshGame 2 1 1 0 true).grid.get_cell 5 5 = none
      ∨ ((freshGame 2 1 1 0 true).grid.cells 5 5).inquired = true := by
    left
    decide
  exact ⟨h, (inquire_rejects_invalid (freshGame 2 1 1 0 true) 5 5 0 0).1 h,
    (inquire_rejects_invalid (freshGame 2 1 1 0 true) 0 0 0 0).2⟩

/-- Counterexample for C7 as stated: with the burst-mode flag set, an
inquiry on a fresh in-range cell still goes through and mutates the state
(the cell becomes inquired), so "mode ≠ Inquiry implies no-op" fails on
the code, which never checks the mode. -/
theorem inquire_in_burst_mode_mutates :
    (freshGame 2 1 1 0 true).burst_mode = true
    ∧ ((freshGame 2 1 1 0 true).grid.cells 0 0).inquired = false
    ∧ (((freshGame 2 1 1 0 true).inquire_cell 0 0 0).2.grid.cells 0 0).inquired = true
    ∧ ((freshGame 2 1 1 0 true).inquire_cell 0 0 0).2 ≠ freshGame 2 1 1 0 true := by
  have hmark : (((freshGame 2 1 1 0 true).inquire_cell 0 0 0).2.grid.cells 0 0).inquired
      = true :=
    inquire_cell_marks (freshGame 2 1 1 0 true) 0 0 0 (by decide) rfl
  refine ⟨rfl, rfl, hmark, fun hcon => ?_⟩
  rw [hcon] at hmark
  exact absurd hmark (by decide)

/-- Claim C9 (amended): `burst_mode_attempt` returns `true` exactly when the
guess equals the ghost's position, and it changes nothing: the code has no
terminal state, so the attempt may be repeated and each call is evaluated
independently. -/
theorem burst_attempt_reports_hit (g : Game) (row col : ℤ) :
    (((g.burst_mode_attempt row col).1 = true) ↔ (row, col) = (g.ghost.x, g.ghost.y))
    ∧ (g.burst_mode_attempt row col).2 = g := by
  refine ⟨?_, rfl⟩
  rw [Game.burst_mode_attempt]
  exact decide_eq_true_iff

/-- Counterexample for C9 as stated: a failed burst attempt does not put the
game in an absorbing `Terminal(lost)` state — a second attempt at the true
position still succeeds, so the attempt is not "single and irrevocable". -/
theorem burst_attempt_not_irrevocable :
    ((freshGame 10 5 5 3 true).burst_mode_attempt 0 0).1 = false
    ∧ (((freshGame 10 5 5 3 true).burst_mode_attempt 0 0).2.burst_mode_attempt 5 5).1
        = true
    ∧ ((freshGame 10 5 5 3 true).burst_mode_attempt 0 0).2.burst_mode = true := by
  refine ⟨by decide, by decide, rfl⟩

/-- Claim C10: `burst_mode_attempt` is a pure observation — the state
component of its result is the input state, every component unchanged, and
repeating the call gives the same result. -/
theorem burst_attempt_frame (g : Game) (row col : ℤ) :
    ((g.burst_mode_attempt row col).2 = g)
    ∧ ((g.burst_mode_attempt row col).2.grid = g.grid
      ∧ (g.burst_mode_attempt row col).2.ghost = g.ghost
      ∧ (g.burst_mode_attempt row col).2.possible_positions = g.possible_positions
      ∧ (g.burst_mode_attempt row col).2.burst_mode = g.burst_mode)
    ∧ ((g.burst_mode_attempt row col).2.burst_mode_attempt row col
        = g.burst_mode_attempt row col) :=
  ⟨rfl, ⟨rfl, rfl, rfl, rfl⟩, rfl⟩

/-- Claim C8 (amended): when a relocation fires and the ghost's coordinate
changes, `possible_positions` is reset to the full `GRID_SIZE²` coordinate
set **minus the inquired cell when that cell is red** (not a plain full
reset), and the state is exactly the region-based update re-applied to the
relocated state (the region mechanism multiplies the existing distribution;
it does not recompute it from scratch). -/
theorem attempt_relocation_reset (g : Game) (row col : ℤ) (choice : ℕ)
    (hfired : (g.attempt_ghost_move row col choice).1 = true) :
    ((g.attempt_ghost_move row col choice).2
      = Game.apply_region_based_probabilities
          { g with ghost := g.ghost.move g.grid choice
                   possible_positions :=
                     if (g.grid.cells row col).color = Color.red then
                       fullPositions.erase (row, col)
                     else fullPositions })
    ∧ (((g.attempt_ghost_move row col choice).2.ghost.x,
        (g.attempt_ghost_move row col choice).2.ghost.y)
        ≠ (g.ghost.x, g.ghost.y))
    ∧ ((g.attempt_ghost_move row col choice).2.possible_positions
        = if (g.grid.cells row col).color = Color.red then
            fullPositions.erase (row, col)
          else fullPositions) := by
  by_cases h1 : g.ghost.can_move = true
  · by_cases h2 : g.moveTrigger row col = true
    · by_cases h3 : ((g.ghost.move g.grid choice).x, (g.ghost.move g.grid choice).y)
          ≠ (g.ghost.x, g.ghost.y)
      · rw [Game.attempt_ghost_move] at hfired ⊢
        dsimp only at hfired ⊢
        rw [if_pos h1, if_pos h2, if_pos h3]
        exact ⟨rfl, h3, rfl⟩
      · rw [Game.attempt_ghost_move] at hfired
        dsimp only at hfired
        rw [if_pos h1, if_pos h2, if_neg h3] at hfired
        simp at hfired
    · rw [Game.attempt_ghost_move] at hfired
      dsimp only at hfired
      rw [if_pos h1, if_neg h2] at hfired
      simp at hfired
  · rw [Game.attempt_ghost_move] at hfired
    dsimp only at hfired
    rw [if_neg h1] at hfired
    simp at hfired

/-- Witness for C8's amended statement: in `redMidGame` (a red hit at
`(5, 5)` with moves left) the relocation fires with oracle 0, and the
theorem's conclusion holds there. -/
theorem attempt_relocation_reset_witness :
    (redMidGame.attempt_ghost_move 5 5 0).1 = true
    ∧ (((redMidGame.attempt_ghost_move 5 5 0).2
        = Game.apply_region_based_probabilities
            { redMidGame with
                ghost := redMidGame.ghost.move redMidGame.grid 0
                possible_positions :=
                  if (redMidGame.grid.cells 5 5).color = Color.red then
                    fullPositions.erase (5, 5)
                  else fullPositions })
      ∧ (((redMidGame.attempt_ghost_move 5 5 0).2.ghost.x,
          (redMidGame.attempt_ghost_move 5 5 0).2.ghost.y)
          ≠ (redMidGame.ghost.x, redMidGame.ghost.y))
      ∧ ((redMidGame.attempt_ghost_move 5 5 0).2.possible_positions
          = if (redMidGame.grid.cells 5 5).color = Color.red then
              fullPositions.erase (5, 5)
            else fullPositions)) := by
  have h : (redMidGame.attempt_ghost_move 5 5 0).1 = true := by decide
  exact ⟨h, attempt_relocation_reset redMidGame 5 5 0 h⟩

/-- Counterexample for C8 as stated: after the relocation triggered by the
red hit at `(5, 5)`, the constraint set is not the full grid — the red cell
has been removed from it. -/
theorem relocation_after_red_excludes_cell :
    (redMidGame.attempt_ghost_move 5 5 0).1 = true
    ∧ ((5 : ℤ), (5 : ℤ)) ∈ fullPositions
    ∧ ((5 : ℤ), (5 : ℤ)) ∉ (redMidGame.attempt_ghost_move 5 5 0).2.possible_positions
    ∧ (redMidGame.attempt_ghost_move 5 5 0).2.possible_positions ≠ fullPositions := by
  refine ⟨by decide, by decide, by decide, fun hcon => ?_⟩
  have h5 : ((5 : ℤ), (5 : ℤ)) ∉
      (redMidGame.attempt_ghost_move 5 5 0).2.possible_positions := by decide
  rw [hcon] at h5
  exact h5 (by decide)

theorem mem_idealCandidates (gh : GhostP) (grid : Grid) (p : ℤ × ℤ) :
    p ∈ gh.idealCandidates grid ↔
      (p ∈ coordList gh.grid_size ∧ p ≠ (gh.x, gh.y)
        ∧ (grid.cells p.1 p.2).inquired = false
        ∧ ∀ q ∈ grid.get_nearby_cells p.1 p.2 1,
            (grid.cells q.1 q.2).inquired = false) := by
  rw [GhostP.idealCandidates, List.mem_filter]
  constructor
  · rintro ⟨hm, hpred⟩
    simp only [Bool.and_eq_true, decide_eq_true_eq, Bool.not_eq_true'] at hpred
    obtain ⟨⟨hne, hinq⟩, hany⟩ := hpred
    rw [List.any_eq_false] at hany
    refine ⟨hm, hne, hinq, fun q hq => ?_⟩
    have := hany q hq
    simpa using this
  · rintro ⟨hm, hne, hinq, hall⟩
    refine ⟨hm, ?_⟩
    simp only [Bool.and_eq_true, decide_eq_true_eq, Bool.not_eq_true']
    refine ⟨⟨hne, hinq⟩, ?_⟩
    rw [List.any_eq_false]
    intro q hq
    simpa using hall q hq

theorem mem_fallbackCandidates (gh : GhostP) (p : ℤ × ℤ) :
    p ∈ gh.fallbackCandidates ↔
      (p ∈ coordList gh.grid_size ∧ p ≠ (gh.x, gh.y)) := by
  rw [GhostP.fallbackCandidates, List.mem_filter]
  simp only [decide_eq_true_eq]

/-- Claim C6: the move of the `ghost.py` agent — candidate set, fallback,
uniform choice modelled by the oracle, budget decrement, no-op at zero
budget, and no failure — on any grid with more than one cell whose size
matches the agent's. -/
theorem ghostp_move_never_fails (gh : GhostP) (grid : Grid) (choice : ℕ)
    (hgs : gh.grid_size = grid.size) (hsize : 1 < gh.grid_size) :
    GhostPMoveSpec gh grid choice := by
  have hgs2 : (1 : ℤ) < (gh.grid_size : ℤ) := by exact_mod_cast hsize
  have h00 : ((0 : ℤ), (0 : ℤ)) ∈ coordList gh.grid_size :=
    mem_coordList.mpr (by constructor <;> [omega; constructor] <;>
      [omega; constructor] <;> omega)
  have h01 : ((0 : ℤ), (1 : ℤ)) ∈ coordList gh.grid_size :=
    mem_coordList.mpr (by constructor <;> [omega; constructor] <;>
      [omega; constructor] <;> omega)
  have hfb_ne : gh.fallbackCandidates ≠ [] := by
    by_cases hcur : ((0 : ℤ), (0 : ℤ)) = (gh.x, gh.y)
    · refine List.ne_nil_of_mem (a := ((0 : ℤ), (1 : ℤ)))
        ((mem_fallbackCandidates gh _).mpr ⟨h01, ?_⟩)
      rw [← hcur]
      decide
    · exact List.ne_nil_of_mem ((mem_fallbackCandidates gh _).mpr ⟨h00, hcur⟩)
  refine ⟨?_, ?_, mem_idealCandidates gh grid, mem_fallbackCandidates gh, ?_⟩
  · intro h0
    rw [GhostP.move, if_pos h0]
  · intro hpos
    rw [GhostP.move, if_neg (by omega)]
    dsimp only
    by_cases hid : gh.idealCandidates grid = []
    · rw [if_pos hid, if_neg hfb_ne]
      have hlt : choice % gh.fallbackCandidates.length < gh.fallbackCandidates.length :=
        Nat.mod_lt _ (List.length_pos.mpr hfb_ne)
      refine ⟨_, rfl, rfl, rfl, fun hcon => absurd hid hcon, fun _ => ?_⟩
      rw [List.getD_eq_getElem _ _ hlt]
      exact List.getElem_mem hlt
    · rw [if_neg hid, if_neg hid]
      have hlt : choice % (gh.idealCandidates grid).length
          < (gh.idealCandidates grid).length :=
        Nat.mod_lt _ (List.length_pos.mpr hid)
      refine ⟨_, rfl, rfl, rfl, fun _ => ?_, fun hcon => absurd hcon hid⟩
      rw [List.getD_eq_getElem _ _ hlt]
      exact List.getElem_mem hlt
  · intro hpos p hp
    have hcs_ne : (if gh.idealCandidates grid = [] then gh.fallbackCandidates
        else gh.idealCandidates grid) ≠ [] := List.ne_nil_of_mem hp
    obtain ⟨i, hlt, hEq⟩ := List.mem_iff_getElem.mp hp
    refine ⟨i, { gh with x := p.1, y := p.2, moves_left := gh.moves_left - 1 },
      ?_, rfl⟩
    rw [GhostP.move, if_neg (by omega)]
    dsimp only
    rw [if_neg hcs_ne, Nat.mod_eq_of_lt hlt, List.getD_eq_getElem _ _ hlt, hEq]

/-- Witness for C6: a fresh 2×2 grid and an agent at `(0, 0)` with one move
left. -/
theorem ghostp_move_never_fails_witness :
    (GhostP.mk 2 1 0 0).grid_size = (freshGrid 2).size
    ∧ 1 < (GhostP.mk 2 1 0 0).grid_size
    ∧ GhostPMoveSpec (GhostP.mk 2 1 0 0) (freshGrid 2) 0 :=
  ⟨rfl, by decide,
    ghostp_move_never_fails (GhostP.mk 2 1 0 0) (freshGrid 2) 0 rfl (by decide)⟩

/-!  Lemmas about the stages of `inquire_cell` and about `Ghost.move`.  -/

theorem inquiryColor_eq_red_iff (g : Game) (row col : ℤ) :
    g.inquiryColor row col = Color.red ↔ (row, col) = (g.ghost.x, g.ghost.y) := by
  rw [Game.inquiryColor]
  by_cases h : (row, col) = (g.ghost.x, g.ghost.y)
  · simp [h]
  · rw [if_neg h]
    constructor
    · intro hcon
      by_cases hn : g.is_ghost_nearby row col = true
      · rw [if_pos hn] at hcon
        exact absurd hcon (by decide)
      · rw [if_neg hn] at hcon
        exact absurd hcon (by decide)
    · intro hcon
      exact absurd hcon h

theorem ghost_move_cases (gh : Ghost) (grid : Grid) (choice : ℕ) :
    gh.move grid choice = gh
    ∨ ((gh.move grid choice).moves_left = gh.moves_left - 1
      ∧ ((gh.move grid choice).x, (gh.move grid choice).y) ∈ grid.all_cells
      ∧ (grid.cells (gh.move grid choice).x (gh.move grid choice).y).inquired = false
      ∧ ((gh.move grid choice).x, (gh.move grid choice).y) ≠ (gh.x, gh.y)) := by
  rw [Ghost.move]
  dsimp only
  split
  · exact Or.inl rfl
  · split
    · exact Or.inl rfl
    · rename_i hmoves hne
      right
      have hlt : choice % (grid.all_cells.filter (fun p =>
          decide (p ≠ (gh.x, gh.y)) && !(grid.cells p.1 p.2).inquired)).length
          < (grid.all_cells.filter (fun p =>
            decide (p ≠ (gh.x, gh.y)) && !(grid.cells p.1 p.2).inquired)).length :=
        Nat.mod_lt _ (List.length_pos.mpr hne)
      rw [List.getD_eq_getElem _ _ hlt]
      have hmem := List.getElem_mem hlt
      rw [List.mem_filter] at hmem
      obtain ⟨hmem, hpred⟩ := hmem
      simp only [Bool.and_eq_true, decide_eq_true_eq, Bool.not_eq_true'] at hpred
      exact ⟨rfl, by simpa using hmem, by simpa using hpred.2, by simpa using hpred.1⟩

theorem constraints_keep_ghost (g : Game) (row col : ℤ) (color : Color)
    (hcolor : color = g.inquiryColor row col)
    (hgb : 0 ≤ g.ghost.x ∧ g.ghost.x < (g.grid.size : ℤ)
      ∧ 0 ≤ g.ghost.y ∧ g.ghost.y < (g.grid.size : ℤ))
    (hmem : (g.ghost.x, g.ghost.y) ∈ g.possible_positions) :
    (g.ghost.x, g.ghost.y) ∈ (g.apply_constraints row col color).possible_positions := by
  subst hcolor
  by_cases hred : (row, col) = (g.ghost.x, g.ghost.y)
  · rw [show g.inquiryColor row col = Color.red from
      (inquiryColor_eq_red_iff g row col).mpr hred]
    rw [Game.apply_constraints, if_pos rfl]
    exact Finset.mem_singleton.mpr hred.symm
  · rw [Game.inquiryColor, if_neg hred]
    have hne : (g.ghost.x, g.ghost.y) ≠ (row, col) := fun hcon => hred hcon.symm
    by_cases hnear : g.is_ghost_nearby row col = true
    · rw [if_pos hnear, Game.apply_constraints, if_neg (by decide), if_pos rfl]
      refine Finset.mem_inter.mpr ⟨hmem, ?_⟩
      rw [List.mem_toFinset, mem_get_nearby_cells]
      have habs := of_decide_eq_true hnear
      rw [Game.is_ghost_nearby] at hnear
      have habs := of_decide_eq_true hnear
      refine ⟨hne, get_cell_isSome.mpr hgb, ?_, ?_⟩
      · simpa [NEARBY_DISTANCE] using habs.1
      · simpa [NEARBY_DISTANCE] using habs.2
    · rw [if_neg hnear, Game.apply_constraints, if_neg (by decide),
        if_neg (by decide), if_pos rfl]
      refine Finset.mem_sdiff.mpr ⟨hmem, fun hcon => ?_⟩
      rcases Finset.mem_union.mp hcon with hcon | hcon
      · rw [List.mem_toFinset, mem_get_nearby_cells] at hcon
        obtain ⟨_, _, h1, h2⟩ := hcon
        refine hnear ?_
        rw [Game.is_ghost_nearby, NEARBY_DISTANCE]
        exact decide_eq_true (by exact ⟨by simpa using h1, by simpa using h2⟩)
      · exact hne (Finset.mem_singleton.mp hcon)

theorem inquire_stages_ghost (g : Game) (row col : ℤ) (color : Color) :
    (((g.markCell row col color).apply_constraints row col color).apply_region_based_probabilities).ghost
      = g.ghost := by
  rw [apply_region_ghost, apply_constraints_ghost, markCell_ghost]

theorem inquire_stages_size (g : Game) (row col : ℤ) (color : Color) :
    (((g.markCell row col color).apply_constraints row col color).apply_region_based_probabilities).grid.size
      = g.grid.size := by
  rw [apply_region_grid, region_result_size, apply_constraints_grid, markCell_size]

theorem inquire_stages_pp (g : Game) (row col : ℤ) (color : Color) :
    (((g.markCell row col color).apply_constraints row col color).apply_region_based_probabilities).possible_positions
      = ((g.markCell row col color).apply_constraints row col color).possible_positions :=
  apply_region_pp _

theorem inquire_stages_inquired (g : Game) (row col : ℤ) (color : Color) (r c : ℤ) :
    ((((g.markCell row col color).apply_constraints row col color).apply_region_based_probabilities).grid.cells r c).inquired
      = ((g.markCell row col color).grid.cells r c).inquired := by
  rw [apply_region_grid, region_result_inquired, apply_constraints_grid]

theorem inquire_stages_color (g : Game) (row col : ℤ) (color : Color) (r c : ℤ) :
    ((((g.markCell row col color).apply_constraints row col color).apply_region_based_probabilities).grid.cells r c).color
      = ((g.markCell row col color).grid.cells r c).color := by
  rw [apply_region_grid, region_result_color, apply_constraints_grid]

theorem moveTrigger_stages (g : Game) (row col : ℤ) (color : Color) :
    (((g.markCell row col color).apply_constraints row col color).apply_region_based_probabilities).moveTrigger row col
      = (g.markCell row col color).moveTrigger row col := by
  refine moveTrigger_congr row col ?_ ?_ ?_
  · rw [inquire_stages_size, markCell_size]
  · intro r c
    rw [inquire_stages_inquired]
  · intro r c
    rw [inquire_stages_color]

theorem moveTrigger_markCell (g : Game) (row col : ℤ) (color : Color) :
    (g.markCell row col color).moveTrigger row col
      = (decide (color = Color.red)
        || (decide (move_threshold (g.grid.get_nearby_cells row col 1).length
              ≤ ((g.grid.get_nearby_cells row col 1).filter
                  (fun p => (g.grid.cells p.1 p.2).inquired)).length)
            && decide (0 < (g.grid.get_nearby_cells row col 1).length))) := by
  rw [Game.moveTrigger]
  have hn : (g.markCell row col color).grid.get_nearby_cells row col 1
      = g.grid.get_nearby_cells row col 1 :=
    get_nearby_cells_congr (markCell_size g row col color) row col 1
  rw [hn, markCell_cells_self]
  have hcount : (g.grid.get_nearby_cells row col 1).filter
        (fun p => ((g.markCell row col color).grid.cells p.1 p.2).inquired)
      = (g.grid.get_nearby_cells row col 1).filter
        (fun p => (g.grid.cells p.1 p.2).inquired) := by
    refine List.filter_congr (fun p hp => ?_)
    have hne : p ≠ (row, col) := (mem_get_nearby_cells.mp hp).1
    rw [markCell_cells_ne g row col color hne]
  rw [hcount]

theorem ghost_move_stages (g : Game) (row col : ℤ) (color : Color) (gh : Ghost)
    (choice : ℕ) :
    gh.move (((g.markCell row col color).apply_constraints row col color).apply_region_based_probabilities).grid choice
      = gh.move (g.markCell row col color).grid choice := by
  refine ghost_move_congr gh choice ?_ ?_
  · rw [inquire_stages_size, markCell_size]
  · intro p _
    rw [inquire_stages_inquired]

/-- Feasibility from component descriptions of a state. -/
theorem ghostFeasible_of {g : Game} {gh : Ghost} {pp : Finset (ℤ × ℤ)} {n : ℕ}
    (hg : g.ghost = gh) (hp : g.possible_positions = pp) (hs : g.grid.size = n)
    (hb : 0 ≤ gh.x ∧ gh.x < (n : ℤ) ∧ 0 ≤ gh.y ∧ gh.y < (n : ℤ))
    (hm : (gh.x, gh.y) ∈ pp) : g.GhostFeasible := by
  refine ⟨?_, ?_⟩
  · rw [hg, hs]
    exact hb
  · rw [hg, hp]
    exact hm

theorem attempt_preserves_feasibility (g : Game) (row col : ℤ) (choice : ℕ)
    (hsize : g.grid.size = 10)
    (hfeas : g.GhostFeasible)
    (hred_pos : (g.grid.cells row col).color = Color.red →
      (row, col) = (g.ghost.x, g.ghost.y)) :
    (g.attempt_ghost_move row col choice).2.GhostFeasible := by
  obtain ⟨hgb, hmem⟩ := hfeas
  rw [Game.attempt_ghost_move]
  dsimp only
  by_cases hcm : g.ghost.can_move = true
  case neg =>
    rw [if_neg hcm]
    exact ⟨hgb, hmem⟩
  rw [if_pos hcm]
  by_cases htr : g.moveTrigger row col = true
  case neg =>
    rw [if_neg htr]
    exact ⟨hgb, hmem⟩
  rw [if_pos htr]
  by_cases hmv : ((g.ghost.move g.grid choice).x, (g.ghost.move g.grid choice).y)
      ≠ (g.ghost.x, g.ghost.y)
  case neg =>
    rw [if_neg hmv]
    push_neg at hmv
    have hx : (g.ghost.move g.grid choice).x = g.ghost.x := congrArg Prod.fst hmv
    have hy : (g.ghost.move g.grid choice).y = g.ghost.y := congrArg Prod.snd hmv
    refine ghostFeasible_of rfl rfl rfl ?_ ?_
    · rw [hx, hy]
      exact hgb
    · rw [hx, hy]
      exact hmem
  rw [if_pos hmv]
  rcases ghost_move_cases g.ghost g.grid choice with hstay | ⟨_, hmemall, _, _⟩
  · exact absurd (by rw [hstay]) hmv
  have hbnds := mem_coordList.mp hmemall
  have hmem10 : ((g.ghost.move g.grid choice).x, (g.ghost.move g.grid choice).y)
      ∈ coordList GRID_SIZE := by
    refine mem_coordList.mpr ?_
    rw [hsize] at hbnds
    exact hbnds
  have hszf : (Game.apply_region_based_probabilities
      { g with ghost := g.ghost.move g.grid choice
               possible_positions :=
                 if (g.grid.cells row col).color = Color.red then
                   fullPositions.erase (row, col)
                 else fullPositions }).grid.size = g.grid.size := by
    rw [apply_region_grid]
    exact region_result_size _
  refine ghostFeasible_of rfl rfl hszf ?_ ?_
  · exact hbnds
  · by_cases hcred : (g.grid.cells row col).color = Color.red
    · rw [if_pos hcred]
      refine Finset.mem_erase.mpr ⟨?_, List.mem_toFinset.mpr hmem10⟩
      rw [hred_pos hcred]
      exact hmv
    · rw [if_neg hcred]
      exact List.mem_toFinset.mpr hmem10

theorem inquire_step_feasible (g : Game) (row col : ℤ) (choice : ℕ)
    (hsize : g.grid.size = 10) (hfeas : g.GhostFeasible) :
    (g.inquire_cell row col choice).2.GhostFeasible := by
  by_cases hb : 0 ≤ row ∧ row < (g.grid.size : ℤ) ∧ 0 ≤ col ∧ col < (g.grid.size : ℤ)
  case neg =>
    rw [inquire_cell_rejected g row col choice (Or.inl (get_cell_eq_none hb))]
    exact hfeas
  by_cases hinq : (g.grid.cells row col).inquired = true
  case pos =>
    rw [inquire_cell_rejected g row col choice (Or.inr hinq)]
    exact hfeas
  have hni : (g.grid.cells row col).inquired = false := by
    cases hv : (g.grid.cells row col).inquired
    · rfl
    · exact absurd hv hinq
  rw [inquire_cell_valid_eq g choice hb hni]
  refine attempt_preserves_feasibility _ row col choice ?_ ?_ ?_
  · exact (inquire_stages_size g row col _).trans hsize
  · refine ghostFeasible_of (inquire_stages_ghost g row col _)
      (inquire_stages_pp g row col _) (inquire_stages_size g row col _)
      hfeas.1 ?_
    exact constraints_keep_ghost (g.markCell row col (g.inquiryColor row col))
      row col (g.inquiryColor row col) rfl hfeas.1 hfeas.2
  · intro hred
    rw [inquire_stages_color, markCell_cells_self] at hred
    rw [inquire_stages_ghost]
    exact (inquiryColor_eq_red_iff g row col).mp hred

/-- Claim C4: feasibility invariant.  It holds of every freshly constructed
game (the ghost starts on the board and all positions are possible), and
every completed `inquire_cell` call — including relocation processing —
preserves it: afterwards the ghost's true position is still a member of
`possible_positions` (and the board size is unchanged, so the invariant is
inductive over game runs). -/
theorem ghost_position_always_feasible :
    (∀ (gx gy : ℤ) (moves : ℕ),
      0 ≤ gx → gx < 10 → 0 ≤ gy → gy < 10 →
      (Game.init gx gy moves).GhostFeasible)
    ∧ (∀ (g : Game) (row col : ℤ) (choice : ℕ),
        g.grid.size = 10 → g.GhostFeasible →
        ((g.inquire_cell row col choice).2.GhostFeasible
          ∧ (g.inquire_cell row col choice).2.grid.size = 10)) := by
  constructor
  · intro gx gy moves h1 h2 h3 h4
    refine @ghostFeasible_of _ ⟨gx, gy, moves⟩ fullPositions GRID_SIZE
      rfl rfl rfl ⟨h1, ?_, h3, ?_⟩ ?_
    · show gx < ((10 : ℕ) : ℤ)
      exact_mod_cast h2
    · show gy < ((10 : ℕ) : ℤ)
      exact_mod_cast h4
    · refine List.mem_toFinset.mpr (mem_coordList.mpr ?_)
      refine ⟨h1, ?_, h3, ?_⟩ <;> [show gx < ((10 : ℕ) : ℤ); show gy < ((10 : ℕ) : ℤ)] <;>
        omega
  · intro g row col choice hsize hfeas
    exact ⟨inquire_step_feasible g row col choice hsize hfeas,
      (inquire_cell_size g row col choice).trans hsize⟩

/-- Witness for C4 at concrete inputs: the initial game with the ghost at
`(5, 5)`, and one inquiry at `(0, 0)` on a fresh 10×10 game. -/
theorem ghost_position_always_feasible_witness :
    ((0 : ℤ) ≤ 5 ∧ (5 : ℤ) < 10 ∧ (Game.init 5 5 3).GhostFeasible)
    ∧ ((freshGame 10 5 5 3 false).grid.size = 10
      ∧ (freshGame 10 5 5 3 false).GhostFeasible
      ∧ (((freshGame 10 5 5 3 false).inquire_cell 0 0 0).2.GhostFeasible
        ∧ ((freshGame 10 5 5 3 false).inquire_cell 0 0 0).2.grid.size = 10)) := by
  have hf : (freshGame 10 5 5 3 false).GhostFeasible := ⟨by decide, by decide⟩
  exact ⟨⟨by norm_num, by norm_num,
      ghost_position_always_feasible.1 5 5 3 (by norm_num) (by norm_num)
        (by norm_num) (by norm_num)⟩,
    rfl, hf,
    ghost_position_always_feasible.2 (freshGame 10 5 5 3 false) 0 0 0 rfl hf⟩

/-- Claim C3 (amended): for every valid inquiry made while the agent has
moves left, the relocation trigger fires exactly when the inquired cell's
true Chebyshev distance to the agent is 0 or the number of inquired cells
in its neighbour block reaches the truncated threshold `int(0.8·n)` —
which, for an interior cell (`n = 8`), is 6 inquired neighbours, a fraction
of 0.75, not 0.8; when it does not fire, no relocation is attempted. -/
theorem inquire_relocation_trigger (g : Game) (row col : ℤ) (choice : ℕ)
    (hb : 0 ≤ row ∧ row < (g.grid.size : ℤ) ∧ 0 ≤ col ∧ col < (g.grid.size : ℤ))
    (hni : (g.grid.cells row col).inquired = false)
    (hmv : 0 < g.ghost.moves_left) :
    RelocationTriggerSpec g row col choice := by
  constructor
  · rw [moveTrigger_stages, moveTrigger_markCell]
    simp only [Bool.or_eq_true, Bool.and_eq_true, decide_eq_true_eq]
    constructor
    · rintro (hred | hcnt)
      · left
        obtain ⟨hx, hy⟩ := Prod.mk.injEq .. ▸ (inquiryColor_eq_red_iff g row col).mp hred
        rw [← hx, ← hy]
        simp only [Int.abs_eq_natAbs, ← Nat.cast_max]
        omega
      · exact Or.inr hcnt
    · rintro (hdist | hcnt)
      · left
        refine (inquiryColor_eq_red_iff g row col).mpr ?_
        rw [Prod.mk.injEq]
        simp only [Int.abs_eq_natAbs, ← Nat.cast_max] at hdist
        omega
      · exact Or.inr hcnt
  · intro hnotrig
    rw [inquire_cell_valid_eq g choice hb hni]
    rw [Game.attempt_ghost_move]
    dsimp only
    have hcan : (((g.markCell row col (g.inquiryColor row col)).apply_constraints
        row col (g.inquiryColor row col)).apply_region_based_probabilities).ghost.can_move
        = true := by
      rw [inquire_stages_ghost, Ghost.can_move]
      exact decide_eq_true hmv
    rw [if_pos hcan, if_neg (by rw [hnotrig]; exact Bool.false_ne_true)]

/-- Witness for C3's amended statement at a concrete input: a fresh 2×2 game
with moves left, inquiring `(0, 0)`. -/
theorem inquire_relocation_trigger_witness :
    (0 ≤ (0 : ℤ) ∧ (0 : ℤ) < ((freshGame 2 1 1 1 false).grid.size : ℤ)
      ∧ 0 ≤ (0 : ℤ) ∧ (0 : ℤ) < ((freshGame 2 1 1 1 false).grid.size : ℤ))
    ∧ ((freshGame 2 1 1 1 false).grid.cells 0 0).inquired = false
    ∧ 0 < (freshGame 2 1 1 1 false).ghost.moves_left
    ∧ RelocationTriggerSpec (freshGame 2 1 1 1 false) 0 0 0 :=
  ⟨by decide, rfl, by decide,
    inquire_relocation_trigger (freshGame 2 1 1 1 false) 0 0 0 (by decide) rfl
      (by decide)⟩

/-- Counterexample for C3 as stated: in `sixNeighborGame` the inquiry at
`(1, 1)` relocates the ghost (returns `true`) although the true Chebyshev
distance is not 0 and only 6 of the 8 neighbours are inquired — a fraction
of 0.75, strictly below the documented threshold 0.8. -/
theorem relocation_fires_below_claimed_threshold :
    (sixNeighborGame.inquire_cell 1 1 0).1 = true
    ∧ max |sixNeighborGame.ghost.x - 1| |sixNeighborGame.ghost.y - 1| ≠ 0
    ∧ sixNeighborGame.inquiredFraction 1 1 < 8 / 10
    ∧ 0 < sixNeighborGame.ghost.moves_left := by
  refine ⟨?_, by decide, ?_, by decide⟩
  · rw [inquire_cell_valid_eq sixNeighborGame 0 (by decide) (by decide)]
    rw [Game.attempt_ghost_move]
    dsimp only
    have hcan : (((sixNeighborGame.markCell 1 1 (sixNeighborGame.inquiryColor 1 1)).apply_constraints
        1 1 (sixNeighborGame.inquiryColor 1 1)).apply_region_based_probabilities).ghost.can_move
        = true := by
      rw [inquire_stages_ghost]
      decide
    rw [if_pos hcan]
    have htr : (((sixNeighborGame.markCell 1 1 (sixNeighborGame.inquiryColor 1 1)).apply_constraints
        1 1 (sixNeighborGame.inquiryColor 1 1)).apply_region_based_probabilities).moveTrigger 1 1
        = true := by
      rw [moveTrigger_stages, moveTrigger_markCell]
      decide
    rw [if_pos htr]
    have hmoved : (((((sixNeighborGame.markCell 1 1 (sixNeighborGame.inquiryColor 1 1)).apply_constraints
          1 1 (sixNeighborGame.inquiryColor 1 1)).apply_region_based_probabilities).ghost.move
          (((sixNeighborGame.markCell 1 1 (sixNeighborGame.inquiryColor 1 1)).apply_constraints
          1 1 (sixNeighborGame.inquiryColor 1 1)).apply_region_based_probabilities).grid 0).x,
        ((((sixNeighborGame.markCell 1 1 (sixNeighborGame.inquiryColor 1 1)).apply_constraints
          1 1 (sixNeighborGame.inquiryColor 1 1)).apply_region_based_probabilities).ghost.move
          (((sixNeighborGame.markCell 1 1 (sixNeighborGame.inquiryColor 1 1)).apply_constraints
          1 1 (sixNeighborGame.inquiryColor 1 1)).apply_region_based_probabilities).grid 0).y)
        ≠ ((((sixNeighborGame.markCell 1 1 (sixNeighborGame.inquiryColor 1 1)).apply_constraints
          1 1 (sixNeighborGame.inquiryColor 1 1)).apply_region_based_probabilities).ghost.x,
          (((sixNeighborGame.markCell 1 1 (sixNeighborGame.inquiryColor 1 1)).apply_constraints
          1 1 (sixNeighborGame.inquiryColor 1 1)).apply_region_based_probabilities).ghost.y) := by
      rw [inquire_stages_ghost, ghost_move_stages]
      decide
    rw [if_pos hmoved]
  · have hcount : ((sixNeighborGame.grid.get_nearby_cells 1 1 1).filter
        (fun p => (sixNeighborGame.grid.cells p.1 p.2).inquired)).length = 6 := by
      decide
    have hlen : (sixNeighborGame.grid.get_nearby_cells 1 1 1).length = 8 := by
      decide
    rw [Game.inquiredFraction, hcount, hlen]
    norm_num

end GhostbusterX
